import Mathlib

/-!
# maintenancebot: event normalisation, dispatch and configuration checks

A shallow embedding of `cmd/maintenancebot/main.go` and `cmd/maintenancebot/config.go`.

Conventions of the embedding:

* A Go `string` is a Lean `String`, read as its sequence of code points. Every string the
  program handles comes out of JSON decoding, hence is valid UTF-8, and on valid UTF-8 the
  byte-level operations used by the code (`HasSuffix`, `TrimLeft` with an ASCII cutset,
  `Index`/`SplitN` with an ASCII separator, slicing at the positions these return) agree with
  the same operations on code points.
* `int64` and `int` values are `Int`; the code only compares and copies them. The unsigned
  64-bit accumulator of `strconv.ParseUint` is a `Nat` reduced modulo `2^64`.
* A pointer that may be `nil` is an `Option`; a slice is a `List` (a `nil` slice is `[]`).
* A Go `map[string]T` is an association list `List (String × T)`; `m[k]` is `List.lookup`
  (with the zero value when the key is absent) and `range m` visits the list in order.
  Go leaves the iteration order unspecified; the theorems hold for every order.
* `panic` (also through `checkErr`) is the `error` case of `Except`.
* Remote calls performed through a bot client are recorded in an explicit trace, and the answer
  of the remote platform is an input of the model. Log output is recorded only for `lerr`.
-/

/-! ## Go standard library: `strings` -/

namespace strings

/-- Position of the first occurrence of `substr` in `s`, counted from `i`; `-1` if absent. -/
def indexFrom (substr : List Char) : List Char → Nat → Int
  | [], i => if substr = [] then (i : Int) else -1
  | c :: cs, i => if substr.isPrefixOf (c :: cs) then (i : Int) else indexFrom substr cs (i + 1)

/-- Go `strings.Index`: index of the first instance of `substr` in `s`, or `-1`. -/
def Index (s substr : String) : Int :=
  indexFrom substr.data s.data 0

/-- Go `strings.HasSuffix`: `len(s) >= len(suffix) && s[len(s)-len(suffix):] == suffix`. -/
def HasSuffix (s suffix : String) : Bool :=
  decide (s.data.length ≥ suffix.data.length) &&
    decide (s.data.drop (s.data.length - suffix.data.length) = suffix.data)

/-- Go `strings.TrimLeft`: `s` without its leading code points contained in `cutset`. -/
def TrimLeft (s cutset : String) : String :=
  ⟨s.data.dropWhile fun c => cutset.data.contains c⟩

end strings

namespace unicode

/-- Go `unicode.IsSpace`: the code points with the Unicode White_Space property. -/
def IsSpace (r : Char) : Bool :=
  let n := r.toNat
  (0x09 ≤ n && n ≤ 0x0D) || n = 0x20 || n = 0x85 || n = 0xA0 || n = 0x1680 ||
    (0x2000 ≤ n && n ≤ 0x200A) || n = 0x2028 || n = 0x2029 || n = 0x202F || n = 0x205F ||
    n = 0x3000

end unicode

namespace strings

/-- Go `strings.TrimSpace`: `s` without leading and trailing white space. -/
def TrimSpace (s : String) : String :=
  ⟨((s.data.dropWhile unicode.IsSpace).reverse.dropWhile unicode.IsSpace).reverse⟩

/-- The loop of Go `strings.genSplit`: at most `k` further cuts at `sep`. -/
def splitLoop (sep : List Char) : Nat → List Char → List String
  | 0, s => [⟨s⟩]
  | k + 1, s =>
    let m := indexFrom sep s 0
    if m < 0 then [⟨s⟩]
    else ⟨s.take m.toNat⟩ :: splitLoop sep k (s.drop (m.toNat + sep.length))

/-- Go `strings.SplitN` for a non-empty separator and `n ≥ 0` (the code calls
`SplitN(text, " ", 2)`): `n = 0` gives no parts, otherwise at most `n` parts, the last one
being the unsplit remainder. As in `genSplit`, `n` is capped at `len(s) + 1`; the cap only
bounds the allocation, since a text of `k` code points is cut at most `k` times. -/
def SplitN (s sep : String) (n : Nat) : List String :=
  if n = 0 then []
  else splitLoop sep.data (min n (s.data.length + 1) - 1) s.data

end strings

/-! ## Go standard library: `strconv` -/

namespace strconv

/-- The two error kinds of `strconv.NumError` that `ParseInt` can report for a valid base and
bit size. -/
inductive NumError where
  | ErrSyntax
  | ErrRange
  deriving DecidableEq, Repr

/-- Go `strconv.lower`: `c | ('x' - 'X')`. -/
def lower (c : Nat) : Nat := c ||| 0x20

/-- The digit loop of Go `strconv.ParseUint` for `2 ≤ base ≤ 36`; `n` is the `uint64`
accumulator. Returns the value and the error, as the Go function does. -/
def parseUintLoop (base cutoff maxVal : Nat) : List Char → Nat → Nat × Option NumError
  | [], n => (n, none)
  | c :: cs, n =>
    let b := c.toNat
    if 48 ≤ b ∧ b ≤ 57 ∨ 97 ≤ lower b ∧ lower b ≤ 122 then
      let d := if 48 ≤ b ∧ b ≤ 57 then b - 48 else lower b - 97 + 10
      if d ≥ base then (0, some NumError.ErrSyntax)
      else if n ≥ cutoff then (maxVal, some NumError.ErrRange)
      else
        let n := (n * base) % 2 ^ 64
        let n1 := (n + d) % 2 ^ 64
        if n1 < n ∨ n1 > maxVal then (maxVal, some NumError.ErrRange)
        else parseUintLoop base cutoff maxVal cs n1
    else (0, some NumError.ErrSyntax)

/-- Go `strconv.ParseUint(s, base, bitSize)` for `2 ≤ base ≤ 36` and `1 ≤ bitSize ≤ 64`
(the code uses base 10 and bit size 64). -/
def ParseUint (s : String) (base bitSize : Nat) : Nat × Option NumError :=
  if s = "" then (0, some NumError.ErrSyntax)
  else parseUintLoop base ((2 ^ 64 - 1) / base + 1) (2 ^ bitSize - 1) s.data 0

/-- Conversion of an integer to `int64` (two's complement wrap-around). -/
def int64 (x : Int) : Int := (x + 2 ^ 63) % 2 ^ 64 - 2 ^ 63

/-- Go `strconv.ParseInt(s, base, bitSize)` for `2 ≤ base ≤ 36` and `1 ≤ bitSize ≤ 64`. The
conversions `int64(_)` and the negations of `int64` values wrap around as in Go. -/
def ParseInt (s : String) (base bitSize : Nat) : Int × Option NumError :=
  if s = "" then (0, some NumError.ErrSyntax)
  else
    let neg := decide (s.data.head? = some '-')
    let s1 : String :=
      if s.data.head? = some '+' ∨ s.data.head? = some '-' then ⟨s.data.tail⟩ else s
    let (un, err) := ParseUint s1 base bitSize
    if err.isSome ∧ err ≠ some NumError.ErrRange then (0, err)
    else
      let cutoff : Nat := 2 ^ (bitSize - 1)
      if !neg ∧ un ≥ cutoff then (int64 ((cutoff : Int) - 1), some NumError.ErrRange)
      else if neg ∧ un > cutoff then (int64 (-int64 (cutoff : Int)), some NumError.ErrRange)
      else
        let n := int64 (un : Int)
        (if neg then int64 (-n) else n, none)

end strconv

/-! ## Go standard library: `path` -/

namespace path

/-- The inner loop of the `..` case of `path.Clean`:
`for out.w > dotdot && out.index(out.w) != '/' { out.w-- }`, as a function of `out.w`. -/
def backtrack (buf : List Char) (dotdot : Nat) : Nat → Nat
  | 0 => 0
  | w + 1 => if w + 1 > dotdot ∧ buf.getD (w + 1) '/' ≠ '/' then backtrack buf dotdot w else w + 1

/-- The main loop of Go `path.Clean`. `rest` is `path[r:]`, `out` holds the `out.w` bytes
written so far. Every iteration consumes at least one byte of `rest`, so a fuel of
`len(path)` is enough. -/
def cleanLoop (rooted : Bool) : Nat → List Char → List Char → Nat → List Char
  | 0, _, out, _ => out
  | _ + 1, [], out, _ => out
  | fuel + 1, c :: t, out, dotdot =>
    if c = '/' then
      cleanLoop rooted fuel t out dotdot
    else if c = '.' ∧ (t = [] ∨ t.head? = some '/') then
      cleanLoop rooted fuel t out dotdot
    else if c = '.' ∧ t.head? = some '.' ∧ (t.tail = [] ∨ t.tail.head? = some '/') then
      if out.length > dotdot then
        cleanLoop rooted fuel t.tail (out.take (backtrack out dotdot (out.length - 1))) dotdot
      else if !rooted then
        let out := (if out.length > 0 then out ++ ['/'] else out) ++ ['.', '.']
        cleanLoop rooted fuel t.tail out out.length
      else
        cleanLoop rooted fuel t.tail out dotdot
    else
      let out :=
        if (rooted ∧ out.length ≠ 1) ∨ (!rooted ∧ out.length ≠ 0) then out ++ ['/'] else out
      cleanLoop rooted fuel ((c :: t).dropWhile (· ≠ '/'))
        (out ++ (c :: t).takeWhile (· ≠ '/')) dotdot

/-- Go `path.Clean`: the shortest path name equivalent to `path` by lexical processing. -/
def Clean (path : String) : String :=
  if path = "" then "."
  else
    let rooted := decide (path.data.head? = some '/')
    let out :=
      if rooted then cleanLoop rooted path.data.length path.data.tail ['/'] 1
      else cleanLoop rooted path.data.length path.data [] 0
    if out.length = 0 then "." else ⟨out⟩

/-- The buffer built by Go `path.Join`: the non-empty elements separated by slashes. -/
def joinBuf : List String → List Char → List Char
  | [], buf => buf
  | e :: es, buf =>
    if buf.length > 0 ∨ e ≠ "" then
      joinBuf es ((if buf.length > 0 then buf ++ ['/'] else buf) ++ e.data)
    else joinBuf es buf

/-- Go `path.Join`: joins the elements with slashes, ignoring empty elements, and cleans the
result. -/
def Join (elem : List String) : String :=
  if (elem.map fun e => e.data.length).sum = 0 then ""
  else Clean ⟨joinBuf elem []⟩

end path

/-! ## The Telegram client library: the parts of the update the code reads -/

namespace tg

/-- `tg.User`, restricted to the field read by the code. -/
structure User where
  ID : Int
  deriving DecidableEq, Repr

/-- `tg.Chat`, restricted to the field read by the code. -/
structure Chat where
  ID : Int
  deriving DecidableEq, Repr

/-- `tg.Message`, restricted to the fields read by the code. -/
structure Message where
  Chat : Option tg.Chat
  Text : String
  NewChatMembers : List User
  deriving DecidableEq, Repr

/-- `tg.CallbackQuery`, restricted to the fields read by the code. -/
structure CallbackQuery where
  ID : String
  From : Option User
  Data : String
  deriving DecidableEq, Repr

/-- `tg.Update`, restricted to the fields read by the code. -/
structure Update where
  Message : Option tg.Message
  ChannelPost : Option tg.Message
  CallbackQuery : Option tg.CallbackQuery
  deriving DecidableEq, Repr

/-- `tg.BotAPI`: the client bound to one bot token. -/
structure BotAPI where
  Token : String
  deriving DecidableEq, Repr

end tg

/-! ## `config.go` -/

/-- The `endpoint` struct of `config.go`. -/
structure endpoint where
  ListenPath : String
  WebhookDomain : String
  BotToken : String
  MaintenanceResponse : String
  deriving DecidableEq, Repr

/-- The `config` struct of `config.go`. -/
structure config where
  AdminID : Int
  AdminEndpoint : String
  ListenAddress : String
  Endpoints : List (String × endpoint)
  TelegramTimeoutSeconds : Int
  deriving DecidableEq, Repr

/-- The loop over `cfg.Endpoints` in `checkConfig` (config.go, lines 43-56). -/
def checkConfig.endpoints : List (String × endpoint) → Option String
  | [] => none
  | (_, x) :: rest =>
    if x.ListenPath = "" then some "configure listen_path"
    else if x.WebhookDomain = "" then some "configure webhook_domain"
    else if x.BotToken = "" then some "configure bot_token"
    else if x.MaintenanceResponse = "" then some "configure maintenance_response"
    else checkConfig.endpoints rest

/-- The function `checkConfig` of config.go: `none` is the `nil` error. -/
def checkConfig (cfg : config) : Option String :=
  match checkConfig.endpoints cfg.Endpoints with
  | some err => some err
  | none =>
    if cfg.ListenAddress = "" then some "configure listen_address"
    else if (cfg.Endpoints.lookup cfg.AdminEndpoint).isNone then some "configure admin_endpoint"
    else if cfg.TelegramTimeoutSeconds = 0 then some "configure telegram_timeout_seconds"
    else none

/-! ## `main.go` -/

/-- What a Go `panic` carries in the modelled code. -/
inductive Panic where
  | error (msg : String)
  | numError (e : strconv.NumError)
  | nilPointerDereference
  deriving DecidableEq, Repr

/-- The zero value of `endpoint`, which a Go map lookup yields for an absent key. -/
def zeroEndpoint : endpoint := ⟨"", "", "", ""⟩

/-- The struct `incomingPacket` of main.go. -/
structure incomingPacket where
  message : tg.Update
  endpoint : String
  deriving DecidableEq, Repr

/-- The struct `worker` of main.go. -/
structure worker where
  bots : List (String × tg.BotAPI)
  cfg : config
  botNames : List (String × String)
  ourIDs : List Int
  deriving DecidableEq, Repr

/-- The clients built by `newWorker` (main.go, lines 89-96): one for every configured
endpoint. The request that `tg.NewBotAPIWithClient` sends to the remote platform is not
modelled. -/
def newWorker.bots (cfg : config) : List (String × tg.BotAPI) :=
  cfg.Endpoints.map fun (n, p) => (n, ⟨p.BotToken⟩)

/-- A request sent to the remote platform through the client of one endpoint. -/
inductive RemoteCall where
  | sendMessage (endpoint : String) (chatID : Int) (text : String)
  | answerCallback (endpoint : String) (callbackQueryID : String)
  | setWebhook (endpoint : String) (url : String)
  | getWebhookInfo (endpoint : String)
  deriving DecidableEq, Repr

/-- Is the call a message send? -/
def RemoteCall.isSendMessage : RemoteCall → Bool
  | RemoteCall.sendMessage _ _ _ => true
  | _ => false

/-- Is the call a callback acknowledgment? -/
def RemoteCall.isAnswerCallback : RemoteCall → Bool
  | RemoteCall.answerCallback _ _ => true
  | _ => false

/-- The behaviour of the remote platform: the error it answers a call with, `none` on
success. -/
abbrev Remote := RemoteCall → Option String

/-- `update.Message != nil && update.Message.Chat != nil` (also used for `ChannelPost`). -/
def messageWithChat : Option tg.Message → Option (tg.Message × tg.Chat)
  | some m =>
    match m.Chat with
    | some chat => some (m, chat)
    | none => none
  | none => none

/-- `update.CallbackQuery != nil && update.CallbackQuery.From != nil`. -/
def callbackWithSender : Option tg.CallbackQuery → Option (tg.CallbackQuery × tg.User)
  | some q =>
    match q.From with
    | some sender => some (q, sender)
    | none => none
  | none => none

/-- The nested loops of `getCommandAndArgs` (main.go, lines 178-185): is the ID of some new
member one of our IDs? -/
def getCommandAndArgs.weWereAdded (members : List tg.User) (ourIDs : List Int) : Bool :=
  members.any fun m => ourIDs.any fun ourID => decide (m.ID = ourID)

/-- The end of `getCommandAndArgs` (main.go, lines 209-212). -/
def getCommandAndArgs.result (chatID : Int) (parts : List String) : Int × String × String :=
  if parts.length < 2 then (chatID, parts.getD 0 "", "")
  else (chatID, parts.getD 0 "", strings.TrimSpace (parts.getD 1 ""))

/-- The second half of `getCommandAndArgs` (main.go, lines 197-212), run on the `text`,
`chatID` and `forceMention` chosen by the first half. -/
def getCommandAndArgs.parse (text : String) (chatID : Int) (forceMention : Bool)
    (mention : String) : Int × String × String :=
  let text := strings.TrimLeft text " /"
  if text = "" then (0, "", "")
  else
    let parts := strings.SplitN text " " 2
    let parts0 := parts.getD 0 ""
    if strings.HasSuffix parts0 mention then
      getCommandAndArgs.result chatID
        (parts.set 0 ⟨parts0.data.take (parts0.data.length - mention.data.length)⟩)
    else if forceMention then (0, "", "")
    else getCommandAndArgs.result chatID parts

/-- The command token of the specification: the part of a text before its first space (the
whole text if it has no space). -/
def commandToken (t : String) : String :=
  ⟨t.data.takeWhile (· ≠ ' ')⟩

/-- The function `getCommandAndArgs` of main.go. -/
def getCommandAndArgs (update : tg.Update) (mention : String) (ourIDs : List Int) :
    Int × String × String :=
  match messageWithChat update.Message with
  | some (m, chat) =>
    if getCommandAndArgs.weWereAdded m.NewChatMembers ourIDs then (chat.ID, "start", "")
    else getCommandAndArgs.parse m.Text chat.ID false mention
  | none =>
    match messageWithChat update.ChannelPost with
    | some (post, chat) => getCommandAndArgs.parse post.Text chat.ID true mention
    | none =>
      match callbackWithSender update.CallbackQuery with
      | some (q, sender) => getCommandAndArgs.parse q.Data sender.ID false mention
      | none => getCommandAndArgs.parse "" 0 false mention

/-- What one call of `processTGUpdate` leaves behind: the worker, the remote calls made, in
order, and the lines written with `lerr`. -/
structure Outcome where
  w : worker
  calls : List RemoteCall
  errors : List String
  deriving DecidableEq, Repr

/-- The method `worker.sendMessage` of main.go: an error of the remote call is logged and
dropped. A missing client is a `nil` pointer, whose use panics. -/
def worker.sendMessage (w : worker) (remote : Remote) (endpoint : String) (chatID : Int)
    (msg : String) : Except Panic (List RemoteCall × List String) :=
  match w.bots.lookup endpoint with
  | none => Except.error Panic.nilPointerDereference
  | some _ =>
    let call := RemoteCall.sendMessage endpoint chatID msg
    match remote call with
    | some err => Except.ok ([call], ["cannot send a message, error: " ++ err])
    | none => Except.ok ([call], [])

/-- The method `worker.processIncomingCommand` of main.go. The command, the arguments and the
time only reach an info log line. -/
def worker.processIncomingCommand (w : worker) (remote : Remote) (endpoint : String)
    (chatID : Int) (_command _arguments : String) (_now : Int) :
    Except Panic (List RemoteCall × List String) :=
  w.sendMessage remote endpoint chatID
    ((w.cfg.Endpoints.lookup endpoint).getD zeroEndpoint).MaintenanceResponse

/-- The callback acknowledgment of `processTGUpdate` (main.go, lines 221-227). -/
def worker.processTGUpdate.answer (w : worker) (remote : Remote) (p : incomingPacket) :
    Except Panic (List RemoteCall × List String) :=
  match p.message.CallbackQuery with
  | none => Except.ok ([], [])
  | some q =>
    match w.bots.lookup p.endpoint with
    | none => Except.error Panic.nilPointerDereference
    | some _ =>
      let callback := RemoteCall.answerCallback p.endpoint q.ID
      match remote callback with
      | some err => Except.ok ([callback], ["cannot answer callback query, " ++ err])
      | none => Except.ok ([callback], [])

/-- The method `worker.processTGUpdate` of main.go; `now` is the reading of the clock. -/
def worker.processTGUpdate (w : worker) (remote : Remote) (now : Int) (p : incomingPacket) :
    Except Panic Outcome :=
  let u := p.message
  let mention := "@" ++ (w.botNames.lookup p.endpoint).getD ""
  let r := getCommandAndArgs u mention w.ourIDs
  match worker.processTGUpdate.answer w remote p with
  | Except.error e => Except.error e
  | Except.ok (calls, errors) =>
    if r.2.1 ≠ "" then
      match w.processIncomingCommand remote p.endpoint r.1 r.2.1 r.2.2 now with
      | Except.error e => Except.error e
      | Except.ok (calls2, errors2) => Except.ok ⟨w, calls ++ calls2, errors ++ errors2⟩
    else Except.ok ⟨w, calls, errors⟩

/-- The loop of `config.getOurIDs` (main.go, lines 235-243); `checkErr` panics on an error. -/
def config.getOurIDs.loop : List (String × endpoint) → List Int → Except Panic (List Int)
  | [], ids => Except.ok ids
  | (_, e) :: rest, ids =>
    let idx := strings.Index e.BotToken ":"
    if idx ≠ -1 then
      match strconv.ParseInt ⟨e.BotToken.data.take idx.toNat⟩ 10 64 with
      | (id, none) => config.getOurIDs.loop rest (ids ++ [id])
      | (_, some err) => Except.error (Panic.numError err)
    else Except.error (Panic.error "cannot get our ID")

/-- The method `config.getOurIDs` of main.go. -/
def config.getOurIDs (c : config) : Except Panic (List Int) :=
  config.getOurIDs.loop c.Endpoints []

/-- The loop of `worker.setWebhook` (main.go, lines 108-123). `newWebhook` stands for
`tg.NewWebhook` of the client library as far as the code depends on it: for a link, the error
of `url.Parse`, on which `checkErr` panics before any remote call, or the URL string
(`URL.String()`) that the request submits. An error of either remote call panics through
`checkErr` as well. -/
def worker.setWebhook.loop (w : worker) (remote : Remote)
    (newWebhook : String → Except String String) :
    List (String × endpoint) → List RemoteCall → Except Panic (List RemoteCall)
  | [], calls => Except.ok calls
  | (n, p) :: rest, calls =>
    match newWebhook (path.Join [p.WebhookDomain, p.ListenPath]) with
    | Except.error err => Except.error (Panic.error err)
    | Except.ok url =>
      let wh := RemoteCall.setWebhook n url
      match w.bots.lookup n with
      | none => Except.error Panic.nilPointerDereference
      | some _ =>
        match remote wh with
        | some err => Except.error (Panic.error err)
        | none =>
          match remote (RemoteCall.getWebhookInfo n) with
          | some err => Except.error (Panic.error err)
          | none =>
            worker.setWebhook.loop w remote newWebhook rest
              (calls ++ [wh, RemoteCall.getWebhookInfo n])

/-- The method `worker.setWebhook` of main.go: the remote calls it makes, in order. -/
def worker.setWebhook (w : worker) (remote : Remote)
    (newWebhook : String → Except String String) : Except Panic (List RemoteCall) :=
  worker.setWebhook.loop w remote newWebhook w.cfg.Endpoints []

/-- The method `worker.incoming` of main.go: for every endpoint, its name and the pattern its
webhook handler is registered on (`WebhookDomain + ListenPath`). The forwarding goroutines and
the channel are not modelled. -/
def worker.incoming (w : worker) : List (String × String) :=
  w.cfg.Endpoints.map fun (name, endpoint) => (name, endpoint.WebhookDomain ++ endpoint.ListenPath)

/-- The integer value of a run of decimal digits, most significant digit first (the
specification side of identity resolution). -/
def decimalValue (ds : List Char) : Nat :=
  Nat.ofDigits 10 (ds.reverse.map fun c => c.toNat - 48)

/-- The worker of the end-to-end scenarios of the specification: one endpoint `"en"` whose
maintenance response is `"Down for maintenance"`, with the bot name `"mbot"`. -/
def scenarioWorker : worker where
  bots := [("en", ⟨"1:secret"⟩)]
  cfg := ⟨1000, "en", ":8080",
    [("en", ⟨"/tok", "example.com", "1:secret", "Down for maintenance"⟩)], 10⟩
  botNames := [("en", "mbot")]
  ourIDs := [1]

/-! ## Lemmas on the string functions -/

theorem strings.take_takeWhile_length {α : Type} (p : α → Bool) (l : List α) :
    l.take (l.takeWhile p).length = l.takeWhile p := by
  induction l with
  | nil => rfl
  | cons a l ih =>
    by_cases ha : p a = true
    · simp [List.takeWhile_cons, ha, ih]
    · simp [List.takeWhile_cons, ha]

theorem strings.drop_takeWhile_length {α : Type} (p : α → Bool) (l : List α) :
    l.drop (l.takeWhile p).length = l.dropWhile p := by
  induction l with
  | nil => rfl
  | cons a l ih =>
    by_cases ha : p a = true
    · simp [List.takeWhile_cons, List.dropWhile_cons, ha, ih]
    · simp [List.takeWhile_cons, List.dropWhile_cons, ha]

/-- `Index` for a one-character separator: the length of the longest run free of it. -/
theorem strings.indexFrom_singleton (c : Char) (s : List Char) (i : Nat) :
    strings.indexFrom [c] s i =
      if c ∈ s then ((i + (s.takeWhile (· ≠ c)).length : Nat) : Int) else -1 := by
  induction s generalizing i with
  | nil => simp [strings.indexFrom]
  | cons x xs ih =>
    by_cases hx : c = x
    · subst hx
      simp [strings.indexFrom]
    · have hx' : ¬ x = c := fun h => hx h.symm
      simp only [strings.indexFrom, List.isPrefixOf, ih]
      simp [hx, hx', List.takeWhile_cons]
      split
      · omega
      · rfl

/-- `SplitN(t, " ", 2)` cuts a non-empty text at its first space, if it has one. -/
theorem strings.SplitN_two (t : String) (h : t ≠ "") :
    strings.SplitN t " " 2 =
      if ' ' ∈ t.data then
        [⟨t.data.takeWhile (· ≠ ' ')⟩, ⟨(t.data.dropWhile (· ≠ ' ')).tail⟩]
      else [t] := by
  have hlen : 1 ≤ t.data.length := by
    rcases t with ⟨l⟩
    cases l with
    | nil => exact absurd rfl h
    | cons a l => simp
  have hk : min 2 (t.data.length + 1) - 1 = 1 := by omega
  have hsep : (" " : String).data = [' '] := rfl
  simp only [strings.SplitN, hk, hsep, strings.splitLoop, strings.indexFrom_singleton]
  by_cases hs : ' ' ∈ t.data
  · simp only [hs, if_true]
    have : ¬ (((0 + (t.data.takeWhile (· ≠ ' ')).length : Nat) : Int) < 0) := by omega
    simp only [this, if_false, Int.toNat_ofNat, Nat.zero_add, List.length_singleton,
      strings.take_takeWhile_length, ← List.drop_drop, strings.drop_takeWhile_length]
    simp
  · simp [hs]

/-- The second half of `getCommandAndArgs`, in terms of the command token and the remainder of
the trimmed text. -/
theorem getCommandAndArgs.parse_eq (text : String) (chatID : Int) (forceMention : Bool)
    (mention : String) :
    getCommandAndArgs.parse text chatID forceMention mention =
      if strings.TrimLeft text " /" = "" then (0, "", "")
      else if strings.HasSuffix (commandToken (strings.TrimLeft text " /")) mention then
        (chatID,
          ⟨(commandToken (strings.TrimLeft text " /")).data.take
            ((commandToken (strings.TrimLeft text " /")).data.length - mention.data.length)⟩,
          if ' ' ∈ (strings.TrimLeft text " /").data then
            strings.TrimSpace ⟨((strings.TrimLeft text " /").data.dropWhile (· ≠ ' ')).tail⟩
          else "")
      else if forceMention then (0, "", "")
      else
        (chatID, commandToken (strings.TrimLeft text " /"),
          if ' ' ∈ (strings.TrimLeft text " /").data then
            strings.TrimSpace ⟨((strings.TrimLeft text " /").data.dropWhile (· ≠ ' ')).tail⟩
          else "") := by
  generalize ht : strings.TrimLeft text " /" = t
  unfold getCommandAndArgs.parse
  simp only [ht]
  by_cases h0 : t = ""
  · simp [h0]
  · simp only [h0, if_false, strings.SplitN_two t h0]
    by_cases hs : ' ' ∈ t.data
    · simp only [hs, if_true, commandToken, getCommandAndArgs.result, List.getD_cons_zero,
        List.set_cons_zero, List.length_cons, List.length_nil, List.getD_cons_succ]
      simp
    · have htk : t.data.takeWhile (· ≠ ' ') = t.data := by
        rw [List.takeWhile_eq_self_iff]
        intro c hc
        simp only [ne_eq, decide_not, Bool.not_eq_true', decide_eq_false_iff_not]
        rintro rfl
        exact hs hc
      simp only [hs, if_false, commandToken, htk, getCommandAndArgs.result, List.getD_cons_zero,
        List.set_cons_zero, List.length_cons, List.length_nil]
      simp

/-- `HasSuffix` holds exactly when the code points of `s` end with those of `suffix`. -/
theorem strings.HasSuffix_iff (s suffix : String) :
    strings.HasSuffix s suffix = true ↔ suffix.data <:+ s.data := by
  simp only [strings.HasSuffix, Bool.and_eq_true, decide_eq_true_eq]
  constructor
  · rintro ⟨_, h⟩
    generalize s.data.length - suffix.data.length = k at h
    exact ⟨s.data.take k, by rw [← h, List.take_append_drop]⟩
  · rintro ⟨t, ht⟩
    have hlen : s.data.length = t.length + suffix.data.length := by
      rw [← ht, List.length_append]
    refine ⟨by omega, ?_⟩
    have hk : s.data.length - suffix.data.length = t.length := by omega
    rw [hk, ← ht, List.drop_left]

/-- `TrimLeft` removes a run of code points of the cutset from the front of `s`. -/
theorem strings.TrimLeft_spec (s cutset : String) :
    ∃ run : List Char, s.data = run ++ (strings.TrimLeft s cutset).data ∧
      ∀ c ∈ run, c ∈ cutset.data := by
  refine ⟨s.data.takeWhile fun c => cutset.data.contains c, ?_, ?_⟩
  · simp only [strings.TrimLeft]
    exact (List.takeWhile_append_dropWhile _ _).symm
  · intro c hc
    simpa using List.mem_takeWhile_imp hc

/-- What `dropWhile` leaves does not start with an element satisfying the test. -/
theorem strings.dropWhile_head {α : Type} (p : α → Bool) (l : List α) (c : α)
    (h : (l.dropWhile p).head? = some c) : p c = false := by
  induction l with
  | nil => simp at h
  | cons a l ih =>
    by_cases ha : p a = true
    · rw [List.dropWhile_cons_of_pos ha] at h
      exact ih h
    · rw [List.dropWhile_cons_of_neg ha] at h
      simp only [List.head?_cons, Option.some.injEq] at h
      subst h
      simpa using ha

/-- `TrimSpace` removes a run of white space from the front of `s` and one from its end, and
what it leaves neither starts nor ends with white space. -/
theorem strings.TrimSpace_spec (s : String) :
    ∃ lead trail : List Char, s.data = lead ++ (strings.TrimSpace s).data ++ trail ∧
      (∀ c ∈ lead, unicode.IsSpace c = true) ∧ (∀ c ∈ trail, unicode.IsSpace c = true) ∧
      (∀ c, (strings.TrimSpace s).data.head? = some c → unicode.IsSpace c = false) ∧
      (∀ c, (strings.TrimSpace s).data.getLast? = some c → unicode.IsSpace c = false) := by
  have hsplit : s.data.dropWhile unicode.IsSpace =
      ((s.data.dropWhile unicode.IsSpace).reverse.dropWhile unicode.IsSpace).reverse ++
        ((s.data.dropWhile unicode.IsSpace).reverse.takeWhile unicode.IsSpace).reverse := by
    rw [← List.reverse_append, List.takeWhile_append_dropWhile, List.reverse_reverse]
  refine ⟨s.data.takeWhile unicode.IsSpace,
    ((s.data.dropWhile unicode.IsSpace).reverse.takeWhile unicode.IsSpace).reverse,
    ?_, ?_, ?_, ?_, ?_⟩
  · simp only [strings.TrimSpace]
    rw [List.append_assoc, ← hsplit, List.takeWhile_append_dropWhile]
  · intro c hc
    exact List.mem_takeWhile_imp hc
  · intro c hc
    exact List.mem_takeWhile_imp (List.mem_reverse.mp hc)
  · intro c hc
    simp only [strings.TrimSpace] at hc
    apply strings.dropWhile_head unicode.IsSpace s.data c
    rw [hsplit]
    generalize ((s.data.dropWhile unicode.IsSpace).reverse.dropWhile unicode.IsSpace).reverse = t
      at hc
    cases t with
    | nil => simp at hc
    | cons a t => simpa using hc
  · intro c hc
    simp only [strings.TrimSpace, List.getLast?_reverse] at hc
    exact strings.dropWhile_head unicode.IsSpace _ c hc

/-- What `TrimLeft` leaves does not start with a code point of the cutset. -/
theorem strings.TrimLeft_head (s cutset : String) (c : Char)
    (h : (strings.TrimLeft s cutset).data.head? = some c) : c ∉ cutset.data := by
  rcases s with ⟨l⟩
  simp only [strings.TrimLeft] at h
  induction l with
  | nil => simp at h
  | cons a l ih =>
    by_cases ha : cutset.data.contains a = true
    · rw [List.dropWhile_cons_of_pos ha] at h
      exact ih h
    · rw [List.dropWhile_cons_of_neg ha] at h
      simp only [List.head?_cons, Option.some.injEq] at h
      subst h
      simpa using ha

/-- A text cut off by `TrimLeft(text, " /")` that is not empty has a non-empty command
token. -/
theorem commandToken_TrimLeft_ne (text : String) (h : strings.TrimLeft text " /" ≠ "") :
    commandToken (strings.TrimLeft text " /") ≠ "" := by
  have hh := strings.TrimLeft_head text " /"
  generalize strings.TrimLeft text " /" = t at h hh
  rcases t with ⟨l⟩
  cases l with
  | nil => exact absurd rfl h
  | cons a l =>
    have ha : a ∉ (" /" : String).data := hh a rfl
    have ha' : a ≠ ' ' := by
      rintro rfl
      exact ha (by decide)
    intro hc
    have hd := congrArg String.data hc
    simp [commandToken, List.takeWhile_cons, ha'] at hd

theorem strings.takeWhile_ne_append (c : Char) (a b : List Char) (h : c ∉ a) :
    (a ++ c :: b).takeWhile (· ≠ c) = a := by
  induction a with
  | nil => simp [List.takeWhile_cons]
  | cons x xs ih =>
    have hx : x ≠ c := fun e => h (by simp [e])
    have hxs : c ∉ xs := fun e => h (by simp [e])
    have := ih hxs
    simp only [List.cons_append, List.takeWhile_cons, ne_eq, hx, not_false_eq_true,
      decide_True, if_true, List.cons.injEq, true_and]
    exact this

theorem strings.dropWhile_ne_append (c : Char) (a b : List Char) (h : c ∉ a) :
    (a ++ c :: b).dropWhile (· ≠ c) = c :: b := by
  induction a with
  | nil => simp [List.dropWhile_cons]
  | cons x xs ih =>
    have hx : x ≠ c := fun e => h (by simp [e])
    have hxs : c ∉ xs := fun e => h (by simp [e])
    have := ih hxs
    simp only [List.cons_append, List.dropWhile_cons, ne_eq, hx, not_false_eq_true,
      decide_True, if_true]
    exact this

/-- A command token cut at the first space of `tok ++ " " ++ rest`. -/
theorem commandToken_append (tok rest : String) (hsp : ' ' ∉ tok.data) :
    commandToken (tok ++ " " ++ rest) = tok ∧
      ((tok ++ " " ++ rest).data.dropWhile (· ≠ ' ')).tail = rest.data ∧
      ' ' ∈ (tok ++ " " ++ rest).data := by
  rcases tok with ⟨a⟩
  rcases rest with ⟨b⟩
  have hd : ((⟨a⟩ : String) ++ " " ++ ⟨b⟩).data = a ++ ' ' :: b := by
    simp [String.data_append]
  simp only at hsp
  simp only [commandToken, hd, strings.takeWhile_ne_append ' ' a b hsp,
    strings.dropWhile_ne_append ' ' a b hsp]
  simp

theorem messageWithChat_some {o : Option tg.Message} {m : tg.Message} {chat : tg.Chat}
    (h : messageWithChat o = some (m, chat)) : o = some m ∧ m.Chat = some chat := by
  cases o with
  | none => simp [messageWithChat] at h
  | some m0 =>
    cases hc : m0.Chat with
    | none => simp [messageWithChat, hc] at h
    | some c0 =>
      simp only [messageWithChat, hc, Option.some.injEq, Prod.mk.injEq] at h
      obtain ⟨rfl, rfl⟩ := h
      exact ⟨rfl, hc⟩

theorem callbackWithSender_some {o : Option tg.CallbackQuery} {q : tg.CallbackQuery}
    {sender : tg.User} (h : callbackWithSender o = some (q, sender)) :
    o = some q ∧ q.From = some sender := by
  cases o with
  | none => simp [callbackWithSender] at h
  | some q0 =>
    cases hc : q0.From with
    | none => simp [callbackWithSender, hc] at h
    | some s0 =>
      simp only [callbackWithSender, hc, Option.some.injEq, Prod.mk.injEq] at h
      obtain ⟨rfl, rfl⟩ := h
      exact ⟨rfl, hc⟩

/-- The first half of `getCommandAndArgs` on a direct message with a chat. -/
theorem getCommandAndArgs_message (update : tg.Update) (mention : String) (ourIDs : List Int)
    (m : tg.Message) (chat : tg.Chat) (hm : update.Message = some m) (hc : m.Chat = some chat) :
    getCommandAndArgs update mention ourIDs =
      if getCommandAndArgs.weWereAdded m.NewChatMembers ourIDs then (chat.ID, "start", "")
      else getCommandAndArgs.parse m.Text chat.ID false mention := by
  simp [getCommandAndArgs, messageWithChat, hm, hc]

/-- An empty command out of the second half of `getCommandAndArgs` comes with the no-op result
or with a command token that is the mention itself. -/
theorem getCommandAndArgs.parse_empty (text : String) (chatID : Int) (forceMention : Bool)
    (mention : String)
    (h : (getCommandAndArgs.parse text chatID forceMention mention).2.1 = "") :
    getCommandAndArgs.parse text chatID forceMention mention = (0, "", "") ∨
      commandToken (strings.TrimLeft text " /") = mention := by
  rw [getCommandAndArgs.parse_eq] at h ⊢
  by_cases h0 : strings.TrimLeft text " /" = ""
  · simp [h0]
  · have hne := commandToken_TrimLeft_ne text h0
    generalize commandToken (strings.TrimLeft text " /") = tok at h hne ⊢
    simp only [h0, if_false] at h ⊢
    by_cases hs : strings.HasSuffix tok mention = true
    · right
      simp only [hs, if_true] at h
      have hl := congrArg String.data h
      simp only [strings.HasSuffix, Bool.and_eq_true, decide_eq_true_eq] at hs
      have hz : tok.data.length - mention.data.length = 0 := by
        by_contra hz
        have : (tok.data.take (tok.data.length - mention.data.length)).length = 0 := by
          rw [show tok.data.take (tok.data.length - mention.data.length) = [] from hl]
          rfl
        rw [List.length_take] at this
        omega
      rcases tok with ⟨a⟩
      rcases mention with ⟨b⟩
      simp only at hs hz
      rw [hz] at hs
      have := hs.2
      simp only [List.drop_zero] at this
      rw [this]
    · simp only [hs] at h ⊢
      cases forceMention with
      | true => simp
      | false =>
        simp only [Bool.false_eq_true, if_false] at h
        exact absurd h hne

/-- The first half of `getCommandAndArgs` on a channel post with a chat, when there is no
direct message. -/
theorem getCommandAndArgs_channelPost (update : tg.Update) (mention : String)
    (ourIDs : List Int) (post : tg.Message) (chat : tg.Chat) (hm : update.Message = none)
    (hp : update.ChannelPost = some post) (hc : post.Chat = some chat) :
    getCommandAndArgs update mention ourIDs =
      getCommandAndArgs.parse post.Text chat.ID true mention := by
  simp [getCommandAndArgs, messageWithChat, hm, hp, hc]

/-- The first half of `getCommandAndArgs` on a callback query with a sender, when there is
neither a direct message nor a channel post. -/
theorem getCommandAndArgs_callback (update : tg.Update) (mention : String)
    (ourIDs : List Int) (q : tg.CallbackQuery) (sender : tg.User) (hm : update.Message = none)
    (hp : update.ChannelPost = none) (hq : update.CallbackQuery = some q)
    (hs : q.From = some sender) :
    getCommandAndArgs update mention ourIDs =
      getCommandAndArgs.parse q.Data sender.ID false mention := by
  simp [getCommandAndArgs, messageWithChat, callbackWithSender, hm, hp, hq, hs]

/-! ## The event normaliser: `getCommandAndArgs` -/

/-- C1, as amended: for every direct message that has a chat, every mention handle and every
list of own identities, if the new-chat-members list of the message contains a member whose ID
occurs in the list of own identities, `getCommandAndArgs` returns the chat ID of the message,
the command `"start"` and empty arguments, whatever the text of the message is. -/
theorem getCommandAndArgs_added_to_group (update : tg.Update) (mention : String)
    (ourIDs : List Int) (m : tg.Message) (chat : tg.Chat) (u : tg.User)
    (hm : update.Message = some m) (hc : m.Chat = some chat) (hu : u ∈ m.NewChatMembers)
    (hid : u.ID ∈ ourIDs) :
    getCommandAndArgs update mention ourIDs = (chat.ID, "start", "") := by
  rw [getCommandAndArgs_message update mention ourIDs m chat hm hc]
  have hw : getCommandAndArgs.weWereAdded m.NewChatMembers ourIDs = true := by
    simp only [getCommandAndArgs.weWereAdded, List.any_eq_true, decide_eq_true_eq]
    exact ⟨u, hu, u.ID, hid, rfl⟩
  simp [hw]

/-- C1, the amended statement at a concrete input: a message in chat 42 with text
`"/help me"` that announces the members 9 and 1, the bot being 1. -/
theorem getCommandAndArgs_added_to_group_witness :
    getCommandAndArgs ⟨some ⟨some ⟨42⟩, "/help me", [⟨9⟩, ⟨1⟩]⟩, none, none⟩ "@bot" [3, 1] =
      (42, "start", "") :=
  getCommandAndArgs_added_to_group ⟨some ⟨some ⟨42⟩, "/help me", [⟨9⟩, ⟨1⟩]⟩, none, none⟩
    "@bot" [3, 1] ⟨some ⟨42⟩, "/help me", [⟨9⟩, ⟨1⟩]⟩ ⟨42⟩ ⟨1⟩ rfl rfl (by decide) (by decide)

/-- C1 as stated fails: the update below carries a message (`update.Message` is present) whose
new-chat-members list contains the own identity 1, but the message has no chat; the guard
`update.Message.Chat != nil` sends it past the membership test and the result is the no-op
result, whose command is not `"start"`. -/
theorem getCommandAndArgs_message_without_chat :
    (tg.Update.mk (some ⟨none, "/help", [⟨1⟩]⟩) none none).Message =
        some ⟨none, "/help", [⟨1⟩]⟩ ∧
      (⟨1⟩ : tg.User) ∈ (tg.Message.mk none "/help" [⟨1⟩]).NewChatMembers ∧
      (tg.User.mk 1).ID ∈ [(1 : Int)] ∧
      getCommandAndArgs ⟨some ⟨none, "/help", [⟨1⟩]⟩, none, none⟩ "@bot" [1] = (0, "", "") ∧
      (getCommandAndArgs ⟨some ⟨none, "/help", [⟨1⟩]⟩, none, none⟩ "@bot" [1]).2.1 ≠ "start" := by
  decide

/-- C2, as amended: for every channel post with a chat on an update without a direct message,
every mention handle and every list of own identities, if the command token of the text of
the post (the part, before the first space, of the text trimmed of leading spaces and `/`)
does not end with the mention handle, `getCommandAndArgs` returns the no-op result
`(0, "", "")`. -/
theorem getCommandAndArgs_channelPost_unmentioned (update : tg.Update) (mention : String)
    (ourIDs : List Int) (post : tg.Message) (chat : tg.Chat) (hm : update.Message = none)
    (hp : update.ChannelPost = some post) (hc : post.Chat = some chat)
    (hsuf : strings.HasSuffix (commandToken (strings.TrimLeft post.Text " /")) mention = false) :
    getCommandAndArgs update mention ourIDs = (0, "", "") := by
  rw [getCommandAndArgs_channelPost update mention ourIDs post chat hm hp hc,
    getCommandAndArgs.parse_eq]
  simp [hsuf]

/-- C2, the amended statement at a concrete input: the post `"hello @bot"` ends with the
mention, its command token `"hello"` does not. -/
theorem getCommandAndArgs_channelPost_unmentioned_witness :
    getCommandAndArgs ⟨none, some ⟨some ⟨5⟩, "hello @bot", []⟩, none⟩ "@bot" [1] = (0, "", "") :=
  getCommandAndArgs_channelPost_unmentioned ⟨none, some ⟨some ⟨5⟩, "hello @bot", []⟩, none⟩
    "@bot" [1] ⟨some ⟨5⟩, "hello @bot", []⟩ ⟨5⟩ rfl rfl rfl (by decide)

/-- C2 as stated fails: the text of the channel post below, trimmed of leading spaces and
`/`, is `"cmd@bot arg"`, which does not end with the mention `"@bot"`; the code tests the
command token `"cmd@bot"`, which does, and returns a command. -/
theorem getCommandAndArgs_channelPost_mention_before_arguments :
    strings.TrimLeft "/cmd@bot arg" " /" = "cmd@bot arg" ∧
      strings.HasSuffix (strings.TrimLeft "/cmd@bot arg" " /") "@bot" = false ∧
      getCommandAndArgs ⟨none, some ⟨some ⟨5⟩, "/cmd@bot arg", []⟩, none⟩ "@bot" [1] =
        (5, "cmd", "arg") := by
  decide

/-- C3: for every direct message with a chat none of whose new members is one of the own
identities, whose text trimmed of leading spaces and `/` is not empty and has a command token
`tok` (the part before the first space) that does not end with the mention handle:
`getCommandAndArgs` returns the chat ID of the message and `tok`, with empty arguments when
the trimmed text has no space (it is `tok`), and, when it has one (it is
`tok ++ " " ++ rest`), with arguments `args` that are `rest` trimmed of surrounding white
space: `rest` is a run of white space, then `args`, then a run of white space, and `args`
neither starts nor ends with white space. -/
theorem getCommandAndArgs_direct_message (update : tg.Update) (mention : String)
    (ourIDs : List Int) (m : tg.Message) (chat : tg.Chat) (tok : String)
    (hm : update.Message = some m) (hc : m.Chat = some chat)
    (hnew : ∀ u ∈ m.NewChatMembers, u.ID ∉ ourIDs)
    (hne : strings.TrimLeft m.Text " /" ≠ "") (hsp : ' ' ∉ tok.data)
    (hsuf : strings.HasSuffix tok mention = false) :
    (strings.TrimLeft m.Text " /" = tok →
        getCommandAndArgs update mention ourIDs = (chat.ID, tok, "")) ∧
      (∀ rest : String, strings.TrimLeft m.Text " /" = tok ++ " " ++ rest →
        ∃ (args : String) (lead trail : List Char),
          getCommandAndArgs update mention ourIDs = (chat.ID, tok, args) ∧
          rest.data = lead ++ args.data ++ trail ∧
          (∀ c ∈ lead, unicode.IsSpace c = true) ∧
          (∀ c ∈ trail, unicode.IsSpace c = true) ∧
          (∀ c, args.data.head? = some c → unicode.IsSpace c = false) ∧
          (∀ c, args.data.getLast? = some c → unicode.IsSpace c = false)) := by
  have hw : getCommandAndArgs.weWereAdded m.NewChatMembers ourIDs = false := by
    rw [Bool.eq_false_iff]
    intro hw
    simp only [getCommandAndArgs.weWereAdded, List.any_eq_true, decide_eq_true_eq] at hw
    obtain ⟨u, hu, i, hi, hui⟩ := hw
    exact hnew u hu (hui ▸ hi)
  rw [getCommandAndArgs_message update mention ourIDs m chat hm hc,
    getCommandAndArgs.parse_eq]
  simp only [hw, Bool.false_eq_true, if_false, hne]
  constructor
  · intro ht
    have htok : commandToken tok = tok := by
      rcases tok with ⟨a⟩
      have : a.takeWhile (· ≠ ' ') = a := by
        rw [List.takeWhile_eq_self_iff]
        intro c hc'
        simp only [ne_eq, decide_not, Bool.not_eq_true', decide_eq_false_iff_not]
        rintro rfl
        exact hsp hc'
      simp only [commandToken, this]
    rw [ht]
    simp only [htok, hsuf, hsp, Bool.false_eq_true, if_false]
  · intro rest ht
    obtain ⟨h1, h2, h3⟩ := commandToken_append tok rest hsp
    obtain ⟨lead, trail, hs1, hs2, hs3, hs4, hs5⟩ := strings.TrimSpace_spec rest
    refine ⟨strings.TrimSpace rest, lead, trail, ?_, hs1, hs2, hs3, hs4, hs5⟩
    rw [ht]
    simp only [h1, h2, h3, hsuf, Bool.false_eq_true, if_false, if_true]

/-- C3 at concrete inputs: from the text `"/cmd \t arg1 arg2 \n"` the theorem gives the
command `"cmd"` and arguments that are `"\t arg1 arg2 \n"` without its surrounding white
space, which the code computes as `"arg1 arg2"`; the text `"/cmd arg1 arg2"` of the claim
yields the command `"cmd"` and the arguments `"arg1 arg2"`. -/
theorem getCommandAndArgs_direct_message_witness :
    (∃ (args : String) (lead trail : List Char),
        getCommandAndArgs ⟨some ⟨some ⟨42⟩, "/cmd \t arg1 arg2 \n", [⟨9⟩]⟩, none, none⟩ "@bot" [1] =
          (42, "cmd", args) ∧
        ("\t arg1 arg2 \n" : String).data = lead ++ args.data ++ trail ∧
        (∀ c ∈ lead, unicode.IsSpace c = true) ∧
        (∀ c ∈ trail, unicode.IsSpace c = true) ∧
        (∀ c, args.data.head? = some c → unicode.IsSpace c = false) ∧
        (∀ c, args.data.getLast? = some c → unicode.IsSpace c = false)) ∧
      getCommandAndArgs ⟨some ⟨some ⟨42⟩, "/cmd \t arg1 arg2 \n", [⟨9⟩]⟩, none, none⟩ "@bot" [1] =
        (42, "cmd", "arg1 arg2") ∧
      getCommandAndArgs ⟨some ⟨some ⟨42⟩, "/cmd arg1 arg2", [⟨9⟩]⟩, none, none⟩ "@bot" [1] =
        (42, "cmd", "arg1 arg2") :=
  ⟨(getCommandAndArgs_direct_message
      ⟨some ⟨some ⟨42⟩, "/cmd \t arg1 arg2 \n", [⟨9⟩]⟩, none, none⟩ "@bot" [1]
      ⟨some ⟨42⟩, "/cmd \t arg1 arg2 \n", [⟨9⟩]⟩ ⟨42⟩ "cmd" rfl rfl (by decide) (by decide)
      (by decide) (by decide)).2 "\t arg1 arg2 \n" (by decide), by decide, by decide⟩

/-- C10, as amended: for every event, every mention handle and every list of own identities,
if `getCommandAndArgs` returns an empty command, then either the whole result is the no-op
result `(0, "", "")`, or the command token of the text that the code parses, trimmed of
leading spaces and `/`, is the mention handle itself; the text parsed is the message text if
the update has a direct message with a chat, else the channel post text if it has a channel
post with a chat, else the callback data if it has a callback query with a sender. -/
theorem getCommandAndArgs_empty_command (update : tg.Update) (mention : String)
    (ourIDs : List Int)
    (hcmd : (getCommandAndArgs update mention ourIDs).2.1 = "") :
    getCommandAndArgs update mention ourIDs = (0, "", "") ∨
      (∃ m chat, update.Message = some m ∧ m.Chat = some chat ∧
        commandToken (strings.TrimLeft m.Text " /") = mention) ∨
      (∃ post chat, messageWithChat update.Message = none ∧
        update.ChannelPost = some post ∧ post.Chat = some chat ∧
        commandToken (strings.TrimLeft post.Text " /") = mention) ∨
      (∃ q sender, messageWithChat update.Message = none ∧
        messageWithChat update.ChannelPost = none ∧
        update.CallbackQuery = some q ∧ q.From = some sender ∧
        commandToken (strings.TrimLeft q.Data " /") = mention) := by
  have hnone : ∀ f, getCommandAndArgs.parse "" 0 f mention = (0, "", "") := by
    intro f
    rw [getCommandAndArgs.parse_eq]
    simp [show strings.TrimLeft "" " /" = "" from rfl]
  unfold getCommandAndArgs at hcmd ⊢
  cases h1 : messageWithChat update.Message with
  | some mc =>
    obtain ⟨m, chat⟩ := mc
    simp only [h1] at hcmd ⊢
    by_cases hw : getCommandAndArgs.weWereAdded m.NewChatMembers ourIDs = true
    · simp only [hw, if_true] at hcmd
      exact absurd hcmd (by decide)
    · simp only [hw, Bool.false_eq_true, if_false] at hcmd ⊢
      rcases getCommandAndArgs.parse_empty _ _ _ _ hcmd with h | h
      · exact Or.inl h
      · exact Or.inr (Or.inl ⟨m, chat, (messageWithChat_some h1).1,
          (messageWithChat_some h1).2, h⟩)
  | none =>
    simp only [h1] at hcmd ⊢
    cases h2 : messageWithChat update.ChannelPost with
    | some pc =>
      obtain ⟨post, chat⟩ := pc
      simp only [h2] at hcmd ⊢
      rcases getCommandAndArgs.parse_empty _ _ _ _ hcmd with h | h
      · exact Or.inl h
      · exact Or.inr (Or.inr (Or.inl ⟨post, chat, trivial, (messageWithChat_some h2).1,
          (messageWithChat_some h2).2, h⟩))
    | none =>
      simp only [h2] at hcmd ⊢
      cases h3 : callbackWithSender update.CallbackQuery with
      | some qs =>
        obtain ⟨q, sender⟩ := qs
        simp only [h3] at hcmd ⊢
        rcases getCommandAndArgs.parse_empty _ _ _ _ hcmd with h | h
        · exact Or.inl h
        · exact Or.inr (Or.inr (Or.inr ⟨q, sender, trivial, trivial, (callbackWithSender_some h3).1,
            (callbackWithSender_some h3).2, h⟩))
      | none => exact Or.inl (hnone _)

/-- C10, the amended statement at a concrete input: a direct message in chat 42 with an empty
text, on an update that also carries the callback data `"@bot"`, yields an empty command; the
text parsed is the empty message text, whose command token is not the mention, so the result
is the no-op result. -/
theorem getCommandAndArgs_empty_command_witness :
    getCommandAndArgs ⟨some ⟨some ⟨42⟩, "", []⟩, none, some ⟨"cb1", some ⟨7⟩, "@bot"⟩⟩
      "@bot" [1] = (0, "", "") := by
  rcases getCommandAndArgs_empty_command
      ⟨some ⟨some ⟨42⟩, "", []⟩, none, some ⟨"cb1", some ⟨7⟩, "@bot"⟩⟩ "@bot" [1]
      (by decide) with h | ⟨m, chat, hM, _, ht⟩ | ⟨post, chat, hno, _⟩ | ⟨q, sender, hno, _⟩
  · exact h
  · cases hM
    exact absurd ht (by decide)
  · exact absurd hno (by decide)
  · exact absurd hno (by decide)

/-- C10 as stated fails: a direct message in chat 42 whose command token is the mention
itself yields an empty command together with the chat ID 42 and the arguments `"hello"`. -/
theorem getCommandAndArgs_empty_command_with_chat :
    getCommandAndArgs ⟨some ⟨some ⟨42⟩, "/@bot hello", []⟩, none, none⟩ "@bot" [1] =
        (42, "", "hello") ∧
      (getCommandAndArgs ⟨some ⟨some ⟨42⟩, "/@bot hello", []⟩, none, none⟩ "@bot" [1]).2.1 = "" ∧
      getCommandAndArgs ⟨some ⟨some ⟨42⟩, "/@bot hello", []⟩, none, none⟩ "@bot" [1] ≠
        (0, "", "") := by
  decide

/-! ## The dispatcher: `processTGUpdate` -/

/-- The worker built by `newWorker` has a client for an endpoint name exactly when the name is
a key of the configured endpoints. -/
theorem newWorker.bots_lookup (cfg : config) (name : String) :
    ((newWorker.bots cfg).lookup name).isSome = true ↔ name ∈ cfg.Endpoints.map Prod.fst := by
  unfold newWorker.bots
  induction cfg.Endpoints with
  | nil => simp
  | cons e l ih =>
    rcases e with ⟨k, b⟩
    by_cases h : name = k
    · subst h
      simp [List.lookup_cons]
    · have : (name == k) = false := by simpa using h
      simp only [List.map_cons, List.lookup_cons, this, ih, List.mem_cons, h, false_or]

/-- On an endpoint that has a client, `processTGUpdate` returns, leaves the worker as it was
and makes these remote calls, whatever the remote platform answers: the acknowledgment of the
callback query, if the update has one, then the maintenance response, if the command is not
empty. -/
theorem worker.processTGUpdate_calls (w : worker) (remote : Remote) (now : Int)
    (p : incomingPacket) (hbot : (w.bots.lookup p.endpoint).isSome = true) :
    ∃ errors, w.processTGUpdate remote now p = Except.ok ⟨w,
      (match p.message.CallbackQuery with
        | some q => [RemoteCall.answerCallback p.endpoint q.ID]
        | none => []) ++
      (if (getCommandAndArgs p.message ("@" ++ (w.botNames.lookup p.endpoint).getD "")
            w.ourIDs).2.1 ≠ "" then
          [RemoteCall.sendMessage p.endpoint
            (getCommandAndArgs p.message ("@" ++ (w.botNames.lookup p.endpoint).getD "")
              w.ourIDs).1
            ((w.cfg.Endpoints.lookup p.endpoint).getD zeroEndpoint).MaintenanceResponse]
        else []), errors⟩ := by
  obtain ⟨bot, hb⟩ := Option.isSome_iff_exists.mp hbot
  have hans : ∃ e1, worker.processTGUpdate.answer w remote p = Except.ok
      ((match p.message.CallbackQuery with
        | some q => [RemoteCall.answerCallback p.endpoint q.ID]
        | none => []), e1) := by
    unfold worker.processTGUpdate.answer
    cases hq : p.message.CallbackQuery with
    | none => exact ⟨[], rfl⟩
    | some q =>
      simp only [hb]
      cases remote (RemoteCall.answerCallback p.endpoint q.ID) with
      | none => exact ⟨[], rfl⟩
      | some err => exact ⟨_, rfl⟩
  obtain ⟨e1, h1⟩ := hans
  have hsend : ∀ chatID msg, ∃ e2, w.sendMessage remote p.endpoint chatID msg =
      Except.ok ([RemoteCall.sendMessage p.endpoint chatID msg], e2) := by
    intro chatID msg
    unfold worker.sendMessage
    simp only [hb]
    cases remote (RemoteCall.sendMessage p.endpoint chatID msg) with
    | none => exact ⟨[], rfl⟩
    | some err => exact ⟨_, rfl⟩
  unfold worker.processTGUpdate
  simp only [h1]
  by_cases hcmd : (getCommandAndArgs p.message ("@" ++ (w.botNames.lookup p.endpoint).getD "")
      w.ourIDs).2.1 = ""
  · simp [hcmd]
  · obtain ⟨e2, h2⟩ := hsend
      (getCommandAndArgs p.message ("@" ++ (w.botNames.lookup p.endpoint).getD "") w.ourIDs).1
      ((w.cfg.Endpoints.lookup p.endpoint).getD zeroEndpoint).MaintenanceResponse
    simp only [ne_eq, hcmd, not_false_eq_true, if_true, worker.processIncomingCommand, h2]
    exact ⟨_, rfl⟩

/-- A command out of the second half of `getCommandAndArgs` comes with the chat ID chosen by
the first half. -/
theorem getCommandAndArgs.parse_chatID (text : String) (chatID : Int) (forceMention : Bool)
    (mention : String)
    (h : (getCommandAndArgs.parse text chatID forceMention mention).2.1 ≠ "") :
    (getCommandAndArgs.parse text chatID forceMention mention).1 = chatID := by
  rw [getCommandAndArgs.parse_eq] at h ⊢
  by_cases h0 : strings.TrimLeft text " /" = ""
  · simp [h0] at h
  · by_cases hs : strings.HasSuffix (commandToken (strings.TrimLeft text " /")) mention = true
    · simp only [h0, hs, if_true, if_false]
    · cases forceMention with
      | true => simp [h0, hs] at h
      | false => simp only [h0, hs, if_false, Bool.false_eq_true]

/-- C4: for every incoming packet on an endpoint that has a client, whatever the remote
platform answers, `processTGUpdate` returns, and the message sends among its remote calls are:
exactly one, of the maintenance response configured for the endpoint, to the chat ID returned
by `getCommandAndArgs` (called with the mention `"@"` followed by the bot name of the
endpoint), if the command returned is not empty; none if it is empty. -/
theorem worker.processTGUpdate_sends (w : worker) (remote : Remote) (now : Int)
    (p : incomingPacket) (hbot : (w.bots.lookup p.endpoint).isSome = true) :
    ∃ o, w.processTGUpdate remote now p = Except.ok o ∧
      o.calls.filter RemoteCall.isSendMessage =
        if (getCommandAndArgs p.message ("@" ++ (w.botNames.lookup p.endpoint).getD "")
            w.ourIDs).2.1 ≠ "" then
          [RemoteCall.sendMessage p.endpoint
            (getCommandAndArgs p.message ("@" ++ (w.botNames.lookup p.endpoint).getD "")
              w.ourIDs).1
            ((w.cfg.Endpoints.lookup p.endpoint).getD zeroEndpoint).MaintenanceResponse]
        else [] := by
  obtain ⟨errors, h⟩ := worker.processTGUpdate_calls w remote now p hbot
  refine ⟨_, h, ?_⟩
  simp only [List.filter_append]
  have hack : (match p.message.CallbackQuery with
      | some q => [RemoteCall.answerCallback p.endpoint q.ID]
      | none => []).filter RemoteCall.isSendMessage = [] := by
    cases p.message.CallbackQuery <;> rfl
  rw [hack, List.nil_append]
  split
  · rfl
  · rfl

/-- C4, the witnesses of the claim: on endpoint `"en"`, the direct message `"/status"` from
chat 42 produces one send of `"Down for maintenance"` to chat 42, and the channel post
`"hello"` produces no send. -/
theorem worker.processTGUpdate_sends_witness :
    (∃ o, scenarioWorker.processTGUpdate (fun _ => none) 0
        ⟨⟨some ⟨some ⟨42⟩, "/status", []⟩, none, none⟩, "en"⟩ = Except.ok o ∧
      o.calls.filter RemoteCall.isSendMessage =
        [RemoteCall.sendMessage "en" 42 "Down for maintenance"]) ∧
    (∃ o, scenarioWorker.processTGUpdate (fun _ => none) 0
        ⟨⟨none, some ⟨some ⟨-100⟩, "hello", []⟩, none⟩, "en"⟩ = Except.ok o ∧
      o.calls.filter RemoteCall.isSendMessage = []) := by
  constructor
  · obtain ⟨o, h1, h2⟩ := worker.processTGUpdate_sends scenarioWorker (fun _ => none) 0
      ⟨⟨some ⟨some ⟨42⟩, "/status", []⟩, none, none⟩, "en"⟩ (by decide)
    exact ⟨o, h1, h2.trans (by decide)⟩
  · obtain ⟨o, h1, h2⟩ := worker.processTGUpdate_sends scenarioWorker (fun _ => none) 0
      ⟨⟨none, some ⟨some ⟨-100⟩, "hello", []⟩, none⟩, "en"⟩ (by decide)
    exact ⟨o, h1, h2.trans (by decide)⟩

/-- C5: for every incoming packet on an endpoint that has a client, whatever the remote
platform answers, `processTGUpdate` returns and (1) if the update is a callback query with a
sender, without a direct message and without a channel post, its remote calls are one
acknowledgment carrying the ID of the query, followed, if the command normalised from the
payload is not empty, by one send of the maintenance response of the endpoint to the chat ID
equal to the identity of the sender, and by nothing if the command is empty; (2) if the update
has no callback query, no remote call is an acknowledgment. -/
theorem worker.processTGUpdate_callback (w : worker) (remote : Remote) (now : Int)
    (p : incomingPacket) (hbot : (w.bots.lookup p.endpoint).isSome = true) :
    ∃ o, w.processTGUpdate remote now p = Except.ok o ∧
      (∀ q sender, p.message.CallbackQuery = some q → q.From = some sender →
        p.message.Message = none → p.message.ChannelPost = none →
        o.calls = RemoteCall.answerCallback p.endpoint q.ID ::
          (if (getCommandAndArgs p.message ("@" ++ (w.botNames.lookup p.endpoint).getD "")
              w.ourIDs).2.1 ≠ "" then
            [RemoteCall.sendMessage p.endpoint sender.ID
              ((w.cfg.Endpoints.lookup p.endpoint).getD zeroEndpoint).MaintenanceResponse]
          else [])) ∧
      (p.message.CallbackQuery = none → o.calls.filter RemoteCall.isAnswerCallback = []) := by
  obtain ⟨errors, h⟩ := worker.processTGUpdate_calls w remote now p hbot
  refine ⟨_, h, ?_, ?_⟩
  · intro q sender hq hs hm hp
    simp only [hq, List.singleton_append]
    congr 1
    by_cases hcmd : (getCommandAndArgs p.message
        ("@" ++ (w.botNames.lookup p.endpoint).getD "") w.ourIDs).2.1 = ""
    · simp [hcmd]
    · have hc := hcmd
      rw [getCommandAndArgs_callback p.message _ w.ourIDs q sender hm hp hq hs] at hc
      have hid := getCommandAndArgs.parse_chatID _ _ _ _ hc
      rw [← getCommandAndArgs_callback p.message _ w.ourIDs q sender hm hp hq hs] at hid
      simp only [ne_eq, hcmd, not_false_eq_true, if_true, hid]
  · intro hq
    simp only [hq, List.nil_append]
    split
    · rfl
    · rfl

/-- C5, the witness of the claim: on endpoint `"en"`, the callback query `"cb1"` from identity
7 with payload `"retry"` yields an acknowledgment and then a send of
`"Down for maintenance"` to chat 7, also when the remote platform answers both calls with an
error. -/
theorem worker.processTGUpdate_callback_witness :
    ∃ o, scenarioWorker.processTGUpdate (fun _ => some "timeout") 0
        ⟨⟨none, none, some ⟨"cb1", some ⟨7⟩, "retry"⟩⟩, "en"⟩ = Except.ok o ∧
      o.calls = [RemoteCall.answerCallback "en" "cb1",
        RemoteCall.sendMessage "en" 7 "Down for maintenance"] := by
  obtain ⟨o, h1, h2, _⟩ := worker.processTGUpdate_callback scenarioWorker
    (fun _ => some "timeout") 0 ⟨⟨none, none, some ⟨"cb1", some ⟨7⟩, "retry"⟩⟩, "en"⟩
    (by decide)
  exact ⟨o, h1, (h2 ⟨"cb1", some ⟨7⟩, "retry"⟩ ⟨7⟩ rfl rfl rfl rfl).trans (by decide)⟩

/-- C9: for every incoming packet on an endpoint that has a client and for every answer
(success or error) of the remote platform to the message send and to the callback
acknowledgment, `processTGUpdate` returns without a panic and leaves the worker (clients, bot
names, configuration, own identities) as it was. -/
theorem worker.processTGUpdate_completes (w : worker) (remote : Remote) (now : Int)
    (p : incomingPacket) (hbot : (w.bots.lookup p.endpoint).isSome = true) :
    ∃ calls errors, w.processTGUpdate remote now p = Except.ok ⟨w, calls, errors⟩ := by
  obtain ⟨errors, h⟩ := worker.processTGUpdate_calls w remote now p hbot
  exact ⟨_, errors, h⟩

/-- C9 at a concrete input: the remote platform answers every call with an error, the packet
is a callback query that normalises to a command. -/
theorem worker.processTGUpdate_completes_witness :
    ∃ calls errors, scenarioWorker.processTGUpdate (fun _ => some "502 Bad Gateway") 0
      ⟨⟨none, none, some ⟨"cb1", some ⟨7⟩, "retry"⟩⟩, "en"⟩ =
      Except.ok ⟨scenarioWorker, calls, errors⟩ :=
  worker.processTGUpdate_completes scenarioWorker (fun _ => some "502 Bad Gateway") 0
    ⟨⟨none, none, some ⟨"cb1", some ⟨7⟩, "retry"⟩⟩, "en"⟩ (by decide)

/-! ## Configuration validation: `checkConfig` -/

theorem lookup_isSome_iff {β : Type} (l : List (String × β)) (k : String) :
    (l.lookup k).isSome = true ↔ k ∈ l.map Prod.fst := by
  induction l with
  | nil => simp
  | cons e l ih =>
    rcases e with ⟨k', b⟩
    by_cases h : k = k'
    · subst h
      simp [List.lookup_cons]
    · have : (k == k') = false := by simpa using h
      simp [List.lookup_cons, this, ih, h]

/-- The loop of `checkConfig` finds no error exactly when the four strings of every endpoint
are non-empty. -/
theorem checkConfig.endpoints_eq_none (l : List (String × endpoint)) :
    checkConfig.endpoints l = none ↔
      ∀ e ∈ l, e.2.ListenPath ≠ "" ∧ e.2.WebhookDomain ≠ "" ∧ e.2.BotToken ≠ "" ∧
        e.2.MaintenanceResponse ≠ "" := by
  induction l with
  | nil => simp [checkConfig.endpoints]
  | cons e l ih =>
    rcases e with ⟨n, x⟩
    simp only [checkConfig.endpoints, List.mem_cons, forall_eq_or_imp]
    by_cases h1 : x.ListenPath = ""
    · simp [h1]
    by_cases h2 : x.WebhookDomain = ""
    · simp [h1, h2]
    by_cases h3 : x.BotToken = ""
    · simp [h1, h2, h3]
    by_cases h4 : x.MaintenanceResponse = ""
    · simp [h1, h2, h3, h4]
    simp only [h1, h2, h3, h4, if_false, ih, ne_eq, not_false_eq_true, true_and]

/-- C7, as amended: `checkConfig` returns no error if and only if every endpoint has a
non-empty listen path, webhook domain, credential and maintenance response, the listen address
is non-empty, the admin endpoint name is a key of the endpoint set, and the remote-API timeout
is not zero. -/
theorem checkConfig_eq_none_iff (cfg : config) :
    checkConfig cfg = none ↔
      (∀ e ∈ cfg.Endpoints, e.2.ListenPath ≠ "" ∧ e.2.WebhookDomain ≠ "" ∧ e.2.BotToken ≠ "" ∧
        e.2.MaintenanceResponse ≠ "") ∧
      cfg.ListenAddress ≠ "" ∧
      cfg.AdminEndpoint ∈ cfg.Endpoints.map Prod.fst ∧
      cfg.TelegramTimeoutSeconds ≠ 0 := by
  rw [← checkConfig.endpoints_eq_none, ← lookup_isSome_iff]
  unfold checkConfig
  cases he : checkConfig.endpoints cfg.Endpoints with
  | some err => simp
  | none =>
    by_cases h1 : cfg.ListenAddress = ""
    · simp [h1]
    by_cases h2 : (List.lookup cfg.AdminEndpoint cfg.Endpoints).isNone = true
    · have : (List.lookup cfg.AdminEndpoint cfg.Endpoints).isSome = false := by
        cases hl : List.lookup cfg.AdminEndpoint cfg.Endpoints with
        | none => rfl
        | some v => simp [hl] at h2
      simp [h1, h2, this]
    have h2' : (List.lookup cfg.AdminEndpoint cfg.Endpoints).isSome = true := by
      cases hl : List.lookup cfg.AdminEndpoint cfg.Endpoints with
      | none => simp [hl] at h2
      | some v => rfl
    by_cases h3 : cfg.TelegramTimeoutSeconds = 0
    · simp [h1, h2, h3]
    simp [h1, h2, h2', h3]

/-- C7 as stated fails: the configuration below has one complete endpoint, a listen address and
an admin endpoint that is configured, and the timeout `-1`, which is not strictly positive;
`checkConfig` tests the timeout against zero only and returns no error. -/
theorem checkConfig_negative_timeout :
    checkConfig ⟨1000, "en", ":8080",
        [("en", ⟨"/tok", "example.com", "1:secret", "Down for maintenance"⟩)], -1⟩ = none ∧
      ¬ (0 < (config.mk 1000 "en" ":8080"
        [("en", ⟨"/tok", "example.com", "1:secret", "Down for maintenance"⟩)]
        (-1)).TelegramTimeoutSeconds) := by
  decide

/-! ## Identity resolution: `getOurIDs` -/

theorem isDigit_iff (c : Char) : c.isDigit = true ↔ 48 ≤ c.toNat ∧ c.toNat ≤ 57 := by
  simp only [Char.isDigit, Bool.and_eq_true, decide_eq_true_eq, Char.toNat, UInt32.le_def,
    ge_iff_le, BitVec.le_def]
  exact Iff.rfl

theorem decimalValue_cons (c : Char) (cs : List Char) :
    decimalValue (c :: cs) = (c.toNat - 48) * 10 ^ cs.length + decimalValue cs := by
  simp [decimalValue, Nat.ofDigits_append]
  ring

/-- On a run of decimal digits whose value fits 64 bits, the loop of `ParseUint` returns the
value, without an error. -/
theorem strconv.parseUintLoop_digits (ds : List Char) (n : Nat)
    (hd : ∀ c ∈ ds, c.isDigit = true)
    (hv : n * 10 ^ ds.length + decimalValue ds < 2 ^ 64) :
    strconv.parseUintLoop 10 ((2 ^ 64 - 1) / 10 + 1) (2 ^ 64 - 1) ds n =
      (n * 10 ^ ds.length + decimalValue ds, none) := by
  induction ds generalizing n with
  | nil => simp [strconv.parseUintLoop, decimalValue]
  | cons c cs ih =>
    have hc := (isDigit_iff c).mp (hd c (List.mem_cons_self _ _))
    have hcs : ∀ x ∈ cs, x.isDigit = true := fun x hx => hd x (List.mem_cons_of_mem _ hx)
    have hpos : 1 ≤ 10 ^ cs.length := Nat.one_le_pow _ _ (by norm_num)
    have hle : n * 10 + (c.toNat - 48) ≤ (n * 10 + (c.toNat - 48)) * 10 ^ cs.length :=
      Nat.le_mul_of_pos_right _ hpos
    have heq : n * 10 ^ (cs.length + 1) + ((c.toNat - 48) * 10 ^ cs.length + decimalValue cs) =
        (n * 10 + (c.toNat - 48)) * 10 ^ cs.length + decimalValue cs := by ring
    rw [decimalValue_cons, List.length_cons, heq] at hv ⊢
    have hn1 : n * 10 + (c.toNat - 48) < 2 ^ 64 := by omega
    have h1 : 48 ≤ c.toNat ∧ c.toNat ≤ 57 ∨
        97 ≤ strconv.lower c.toNat ∧ strconv.lower c.toNat ≤ 122 := Or.inl hc
    have h2 : ¬ (c.toNat - 48 ≥ 10) := by omega
    have h3 : ¬ (n ≥ (2 ^ 64 - 1) / 10 + 1) := by omega
    have h4 : n * 10 % 2 ^ 64 = n * 10 := Nat.mod_eq_of_lt (by omega)
    have h5 : (n * 10 + (c.toNat - 48)) % 2 ^ 64 = n * 10 + (c.toNat - 48) :=
      Nat.mod_eq_of_lt hn1
    have h6 : ¬ (n * 10 + (c.toNat - 48) < n * 10 ∨ n * 10 + (c.toNat - 48) > 2 ^ 64 - 1) := by
      omega
    rw [← ih (n * 10 + (c.toNat - 48)) hcs hv]
    conv_lhs => unfold strconv.parseUintLoop
    simp only [h1, hc, and_self, if_true, h2, h3, h4, h5, h6, if_false, true_or]

/-- When the loop of `ParseUint` in base 10 returns without an error, it has read decimal
digits only. -/
theorem strconv.parseUintLoop_ok (cutoff maxVal : Nat) (s : List Char) (n v : Nat)
    (h : strconv.parseUintLoop 10 cutoff maxVal s n = (v, none)) :
    ∀ c ∈ s, c.isDigit = true := by
  induction s generalizing n with
  | nil => simp
  | cons c cs ih =>
    unfold strconv.parseUintLoop at h
    by_cases hc : 48 ≤ c.toNat ∧ c.toNat ≤ 57
    · simp only [hc, and_self, true_or, if_true] at h
      split at h
      · simp at h
      · split at h
        · simp at h
        · split at h
          · simp at h
          · intro x hx
            rcases List.mem_cons.mp hx with rfl | hx
            · exact (isDigit_iff x).mpr hc
            · exact ih _ h x hx
    · exfalso
      simp only [hc, false_or, if_false] at h
      split at h
      · have : strconv.lower c.toNat - 97 + 10 ≥ 10 := by omega
        simp [this] at h
      · simp at h

/-- A range error of the loop of `ParseUint` comes with the maximal value. -/
theorem strconv.parseUintLoop_range (base cutoff maxVal : Nat) (s : List Char) (n v : Nat)
    (h : strconv.parseUintLoop base cutoff maxVal s n = (v, some strconv.NumError.ErrRange)) :
    v = maxVal := by
  induction s generalizing n with
  | nil => simp [strconv.parseUintLoop] at h
  | cons c cs ih =>
    unfold strconv.parseUintLoop at h
    simp only at h
    generalize (if 48 ≤ c.toNat ∧ c.toNat ≤ 57 then c.toNat - 48
      else strconv.lower c.toNat - 97 + 10) = d at h
    split at h
    · split at h
      · simp at h
      · split at h
        · simp only [Prod.mk.injEq, and_true] at h
          exact h.symm
        · split at h
          · simp only [Prod.mk.injEq, and_true] at h
            exact h.symm
          · exact ih _ h
    · simp at h

/-- `ParseInt` in base 10 and 64 bits on a non-empty run of decimal digits whose value is below
`2^63` returns the value. -/
theorem strconv.ParseInt_digits (ds : List Char) (hne : ds ≠ [])
    (hd : ∀ c ∈ ds, c.isDigit = true) (hv : decimalValue ds < 2 ^ 63) :
    strconv.ParseInt ⟨ds⟩ 10 64 = ((decimalValue ds : Int), none) := by
  obtain ⟨c, cs, rfl⟩ := List.exists_cons_of_ne_nil hne
  have hc := (isDigit_iff c).mp (hd c (List.mem_cons_self _ _))
  have hminus : c ≠ '-' := by
    rintro rfl
    revert hc
    decide
  have hplus : c ≠ '+' := by
    rintro rfl
    revert hc
    decide
  have hs : (⟨c :: cs⟩ : String) ≠ "" := by
    intro h
    have := congrArg String.data h
    simp at this
  have hloop := strconv.parseUintLoop_digits (c :: cs) 0 hd (by omega)
  simp only [Nat.zero_mul, Nat.zero_add] at hloop
  have hi : strconv.int64 (decimalValue (c :: cs) : Int) = (decimalValue (c :: cs) : Int) := by
    unfold strconv.int64
    omega
  unfold strconv.ParseInt strconv.ParseUint
  simp only [hs, if_false, List.head?_cons, Option.some.injEq, hminus, hplus, or_self,
    decide_False, hloop]
  have hcut : ¬ (decimalValue (c :: cs) ≥ 2 ^ (64 - 1)) := by
    simp only [Nat.add_one_sub_one, not_le, ge_iff_le]
    omega
  simp only [Nat.add_one_sub_one, ge_iff_le, not_le] at hcut
  simp [hi]
  omega

/-- When `ParseInt` in base 10 and 64 bits returns without an error, its argument is a
non-empty run of decimal digits, possibly preceded by one sign. -/
theorem strconv.ParseInt_ok (s : String) (v : Int) (h : strconv.ParseInt s 10 64 = (v, none)) :
    ∃ ds : List Char, ds ≠ [] ∧ (∀ c ∈ ds, c.isDigit = true) ∧
      (s.data = ds ∨ s.data = '+' :: ds ∨ s.data = '-' :: ds) := by
  unfold strconv.ParseInt at h
  by_cases hs : s = ""
  · simp [hs] at h
  simp only [hs, if_false] at h
  have key : ∀ s1 : String, (s.data = s1.data ∨ s.data = '+' :: s1.data ∨
      s.data = '-' :: s1.data) →
      ∀ neg : Bool, (match strconv.ParseUint s1 10 64 with
        | (un, err) =>
          if err.isSome ∧ err ≠ some strconv.NumError.ErrRange then ((0 : Int), err)
          else if (!neg) = true ∧ un ≥ 2 ^ (64 - 1) then
            (strconv.int64 (((2 ^ (64 - 1) : Nat) : Int) - 1), some strconv.NumError.ErrRange)
          else if neg = true ∧ un > 2 ^ (64 - 1) then
            (strconv.int64 (-strconv.int64 ((2 ^ (64 - 1) : Nat) : Int)),
              some strconv.NumError.ErrRange)
          else (if neg = true then strconv.int64 (-strconv.int64 (un : Int))
            else strconv.int64 (un : Int), none)) = (v, none) →
      ∃ ds : List Char, ds ≠ [] ∧ (∀ c ∈ ds, c.isDigit = true) ∧
        (s.data = ds ∨ s.data = '+' :: ds ∨ s.data = '-' :: ds) := by
    intro s1 hs1 neg hres
    unfold strconv.ParseUint at hres
    by_cases h1 : s1 = ""
    · simp [h1] at hres
    simp only [h1, if_false] at hres
    generalize hl : strconv.parseUintLoop 10 ((2 ^ 64 - 1) / 10 + 1) (2 ^ 64 - 1) s1.data 0 = r
      at hres
    rcases r with ⟨un, err⟩
    cases err with
    | none =>
      refine ⟨s1.data, ?_, strconv.parseUintLoop_ok _ _ _ _ _ hl, hs1⟩
      intro hnil
      apply h1
      rcases s1 with ⟨l⟩
      simp only at hnil
      rw [hnil]
    | some e =>
      exfalso
      cases e with
      | ErrSyntax => simp at hres
      | ErrRange =>
        have hun := strconv.parseUintLoop_range _ _ _ _ _ _ hl
        subst hun
        cases neg <;> simp at hres
  rcases s with ⟨l⟩
  cases l with
  | nil => exact absurd rfl hs
  | cons c cs =>
    by_cases hm : c = '-'
    · subst hm
      exact key ⟨cs⟩ (Or.inr (Or.inr rfl)) true (by simpa using h)
    · by_cases hp : c = '+'
      · subst hp
        exact key ⟨cs⟩ (Or.inr (Or.inl rfl)) false (by simpa using h)
      · exact key ⟨c :: cs⟩ (Or.inl rfl) false (by simpa [hm, hp] using h)

/-- `Index(token, ":")` and the prefix before the first `:`. -/
theorem strings.Index_colon (token : String) :
    (':' ∈ token.data → strings.Index token ":" ≠ -1 ∧
      token.data.take (strings.Index token ":").toNat = token.data.takeWhile (· ≠ ':')) ∧
    (':' ∉ token.data → strings.Index token ":" = -1) := by
  have hsep : (":" : String).data = [':'] := rfl
  simp only [strings.Index, hsep, strings.indexFrom_singleton]
  constructor
  · intro h
    simp only [h, if_true, Nat.zero_add, Int.toNat_ofNat, strings.take_takeWhile_length,
      and_true]
    omega
  · intro h
    simp [h]

/-- The loop of `getOurIDs` on credentials of the form `<digits>:<rest>` with values below
`2^63`. -/
theorem config.getOurIDs.loop_digits (l : List (String × endpoint)) (vals : List Nat)
    (ids : List Int)
    (h : List.Forall₂ (fun (e : String × endpoint) (v : Nat) =>
      ∃ ds rest : List Char, e.2.BotToken.data = ds ++ ':' :: rest ∧ ds ≠ [] ∧
        (∀ ch ∈ ds, ch.isDigit = true) ∧ decimalValue ds = v ∧ v < 2 ^ 63) l vals) :
    config.getOurIDs.loop l ids = Except.ok (ids ++ vals.map Int.ofNat) := by
  induction h generalizing ids with
  | nil => simp [config.getOurIDs.loop]
  | @cons e v l vals he _ ih =>
    obtain ⟨ds, rest, htok, hne, hd, hval, hlt⟩ := he
    rcases e with ⟨n, e⟩
    have hcolon : ':' ∉ ds := by
      intro hmem
      have := (isDigit_iff ':').mp (hd _ hmem)
      revert this
      decide
    have hin : ':' ∈ e.BotToken.data := by
      simp only at htok
      rw [htok]
      simp
    obtain ⟨hidx, htake⟩ := (strings.Index_colon e.BotToken).1 hin
    have hpre : e.BotToken.data.takeWhile (· ≠ ':') = ds := by
      simp only at htok
      rw [htok]
      exact strings.takeWhile_ne_append ':' ds rest hcolon
    unfold config.getOurIDs.loop
    simp only [hidx, ne_eq, not_false_eq_true, if_true, htake, hpre,
      strconv.ParseInt_digits ds hne hd (hval ▸ hlt), ih, hval]
    simp

/-- The loop of `getOurIDs` panics when some credential has no `:` or a prefix that is not an
optionally signed run of decimal digits. -/
theorem config.getOurIDs.loop_malformed (l : List (String × endpoint)) (ids : List Int)
    (h : ∃ e ∈ l, ':' ∉ e.2.BotToken.data ∨
      ¬ ∃ ds : List Char, ds ≠ [] ∧ (∀ ch ∈ ds, ch.isDigit = true) ∧
        (e.2.BotToken.data.takeWhile (· ≠ ':') = ds ∨
          e.2.BotToken.data.takeWhile (· ≠ ':') = '+' :: ds ∨
          e.2.BotToken.data.takeWhile (· ≠ ':') = '-' :: ds)) :
    ∃ err, config.getOurIDs.loop l ids = Except.error err := by
  induction l generalizing ids with
  | nil =>
    obtain ⟨e, he, _⟩ := h
    simp at he
  | cons x l ih =>
    rcases x with ⟨n, x⟩
    unfold config.getOurIDs.loop
    by_cases hin : ':' ∈ x.BotToken.data
    · obtain ⟨hidx, htake⟩ := (strings.Index_colon x.BotToken).1 hin
      simp only [hidx, ne_eq, not_false_eq_true, if_true, htake]
      generalize hp : strconv.ParseInt ⟨x.BotToken.data.takeWhile (· ≠ ':')⟩ 10 64 = r
      rcases r with ⟨id, err⟩
      cases err with
      | some err => exact ⟨_, rfl⟩
      | none =>
        simp only
        apply ih
        obtain ⟨e, he, hbad⟩ := h
        rcases List.mem_cons.mp he with rfl | he
        · exfalso
          rcases hbad with hbad | hbad
          · exact hbad hin
          · exact hbad (strconv.ParseInt_ok _ _ hp)
        · exact ⟨e, he, hbad⟩
    · have hidx := (strings.Index_colon x.BotToken).2 hin
      simp only [hidx, ne_eq, not_true_eq_false, if_false]
      exact ⟨_, rfl⟩

/-- C6, as amended: (1) when every credential of the configuration has the form
`<digits>:<rest>` (a non-empty run of decimal digits, then `:`) with digits of a value below
`2^63`, `getOurIDs` yields the integer values of the digits, one per endpoint; (2) when some
credential contains no `:`, or its prefix before the first `:` is not a non-empty run of
decimal digits optionally preceded by one sign `+` or `-`, `getOurIDs` fails with a panic. -/
theorem config.getOurIDs_spec (c : config) :
    (∀ vals : List Nat,
      List.Forall₂ (fun (e : String × endpoint) (v : Nat) =>
        ∃ ds rest : List Char, e.2.BotToken.data = ds ++ ':' :: rest ∧ ds ≠ [] ∧
          (∀ ch ∈ ds, ch.isDigit = true) ∧ decimalValue ds = v ∧ v < 2 ^ 63)
        c.Endpoints vals →
      c.getOurIDs = Except.ok (vals.map Int.ofNat)) ∧
    ((∃ e ∈ c.Endpoints, ':' ∉ e.2.BotToken.data ∨
        ¬ ∃ ds : List Char, ds ≠ [] ∧ (∀ ch ∈ ds, ch.isDigit = true) ∧
          (e.2.BotToken.data.takeWhile (· ≠ ':') = ds ∨
            e.2.BotToken.data.takeWhile (· ≠ ':') = '+' :: ds ∨
            e.2.BotToken.data.takeWhile (· ≠ ':') = '-' :: ds)) →
      ∃ err, c.getOurIDs = Except.error err) := by
  constructor
  · intro vals h
    have := config.getOurIDs.loop_digits c.Endpoints vals [] h
    simpa [config.getOurIDs] using this
  · intro h
    exact config.getOurIDs.loop_malformed c.Endpoints [] h

/-- C6, the amended statement at concrete inputs: the credential `"123456:ABC-DEF"` resolves
to 123456, and the credential `"abc:DEF"`, whose prefix is not numeric, makes `getOurIDs`
fail. -/
theorem config.getOurIDs_spec_witness :
    (config.mk 1000 "en" ":8080"
        [("en", ⟨"/tok", "example.com", "123456:ABC-DEF", "Down for maintenance"⟩)]
        10).getOurIDs = Except.ok [123456] ∧
      ∃ err, (config.mk 1000 "en" ":8080"
        [("en", ⟨"/tok", "example.com", "abc:DEF", "Down for maintenance"⟩)]
        10).getOurIDs = Except.error err :=
  ⟨(config.getOurIDs_spec (config.mk 1000 "en" ":8080"
      [("en", ⟨"/tok", "example.com", "123456:ABC-DEF", "Down for maintenance"⟩)] 10)).1
      [123456]
      (List.Forall₂.cons
        ⟨"123456".data, "ABC-DEF".data, by decide, by decide, by decide, by decide, by decide⟩
        List.Forall₂.nil),
    (config.getOurIDs_spec (config.mk 1000 "en" ":8080"
      [("en", ⟨"/tok", "example.com", "abc:DEF", "Down for maintenance"⟩)] 10)).2
      ⟨("en", ⟨"/tok", "example.com", "abc:DEF", "Down for maintenance"⟩),
        List.mem_singleton_self _,
        Or.inr (by
          rintro ⟨ds, _, hd, h⟩
          have htw : (("en", endpoint.mk "/tok" "example.com" "abc:DEF"
              "Down for maintenance").2.BotToken.data.takeWhile (· ≠ ':')) = ['a', 'b', 'c'] := by
            decide
          rw [htw] at h
          rcases h with h | h | h
          · have := hd 'a' (by rw [← h]; simp)
            revert this
            decide
          · cases h
          · cases h)⟩⟩

/-- C6 as stated fails: the credential `"9223372036854775808:AAA"` has the form
`<digits>:<rest>`, the value of its digits is `2^63`, and `getOurIDs` panics with the range
error of `strconv.ParseInt` instead of yielding that value. -/
theorem config.getOurIDs_out_of_range :
    ("9223372036854775808:AAA" : String).data = "9223372036854775808".data ++ ':' :: "AAA".data ∧
      (∀ ch ∈ "9223372036854775808".data, ch.isDigit = true) ∧
      decimalValue "9223372036854775808".data = 2 ^ 63 ∧
      (config.mk 1000 "en" ":8080"
        [("en", ⟨"/tok", "example.com", "9223372036854775808:AAA", "Down for maintenance"⟩)]
        10).getOurIDs = Except.error (Panic.numError strconv.NumError.ErrRange) :=
  ⟨by decide, by decide, by decide, rfl⟩

/-! ## Webhook registration: `setWebhook` and `incoming` -/

/-- The loop of `path.Clean` does not depend on the fuel once the fuel covers the bytes left to
read: the fuel `len(path)` given by `path.Clean` never runs out. -/
theorem path.cleanLoop_fuel (rooted : Bool) (fuel k : Nat) (rest out : List Char) (dotdot : Nat)
    (h : rest.length ≤ fuel) :
    path.cleanLoop rooted (fuel + k) rest out dotdot =
      path.cleanLoop rooted fuel rest out dotdot := by
  induction fuel generalizing rest out dotdot with
  | zero =>
    have hr : rest = [] := List.length_eq_zero.mp (Nat.le_zero.mp h)
    subst hr
    cases k <;> simp [path.cleanLoop]
  | succ fuel ih =>
    cases rest with
    | nil => simp [path.cleanLoop, Nat.add_right_comm fuel 1 k]
    | cons c t =>
      have ht : t.length ≤ fuel := by simpa using h
      have htt : t.tail.length ≤ fuel := by
        rw [List.length_tail]
        omega
      rw [Nat.add_right_comm fuel 1 k]
      unfold path.cleanLoop
      by_cases h1 : c = '/'
      · simp only [h1, if_true]
        exact ih _ _ _ ht
      · simp only [h1, if_false]
        have hdw : ((c :: t).dropWhile (· ≠ '/')).length ≤ fuel := by
          simp only [List.dropWhile_cons, ne_eq, h1, not_false_eq_true, decide_True, if_true]
          exact le_trans (List.dropWhile_sublist _).length_le ht
        rw [ih _ _ _ ht, ih _ _ _ htt, ih _ _ _ htt, ih _ _ _ htt, ih _ _ _ hdw]

/-- C8 fails on the code: for the endpoint `"en"` with webhook domain `"https://example.com"`
and listen path `"/tok"`, the link that `setWebhook` hands to `tg.NewWebhook` is
`"https:/example.com/tok"`, whatever `tg.NewWebhook` makes of it, because `path.Join` cleans
the joined path and collapses the double slash; when the link is submitted as it is, the URL
registered is `"https:/example.com/tok"`, while `incoming` listens on the plain concatenation
`"https://example.com/tok"`. The two also differ without a scheme, for instance on the listen
path `"/tok/"`. -/
theorem worker.setWebhook_link_differs :
    (∀ newWebhook : String → Except String String,
      worker.setWebhook ⟨[("en", ⟨"1:secret"⟩)], ⟨1000, "en", ":8080",
        [("en", ⟨"/tok", "https://example.com", "1:secret", "Down for maintenance"⟩)], 10⟩,
        [], [1]⟩ (fun _ => none) newWebhook =
        match newWebhook "https:/example.com/tok" with
        | Except.error err => Except.error (Panic.error err)
        | Except.ok url =>
          Except.ok [RemoteCall.setWebhook "en" url, RemoteCall.getWebhookInfo "en"]) ∧
      worker.setWebhook ⟨[("en", ⟨"1:secret"⟩)], ⟨1000, "en", ":8080",
        [("en", ⟨"/tok", "https://example.com", "1:secret", "Down for maintenance"⟩)], 10⟩,
        [], [1]⟩ (fun _ => none) Except.ok =
        Except.ok [RemoteCall.setWebhook "en" "https:/example.com/tok",
          RemoteCall.getWebhookInfo "en"] ∧
      worker.incoming ⟨[("en", ⟨"1:secret"⟩)], ⟨1000, "en", ":8080",
        [("en", ⟨"/tok", "https://example.com", "1:secret", "Down for maintenance"⟩)], 10⟩,
        [], [1]⟩ = [("en", "https://example.com/tok")] ∧
      path.Join ["https://example.com", "/tok"] ≠ "https://example.com" ++ "/tok" ∧
      path.Join ["example.com", "/tok/"] = "example.com/tok" ∧
      path.Join ["example.com", "/tok/"] ≠ "example.com" ++ "/tok/" := by
  refine ⟨?_, rfl, by decide, by decide, by decide, by decide⟩
  intro newWebhook
  have hj : path.Join ["https://example.com", "/tok"] = "https:/example.com/tok" := by decide
  simp only [worker.setWebhook, worker.setWebhook.loop, hj]
  cases newWebhook "https:/example.com/tok" with
  | error err => rfl
  | ok url => rfl
